import Mathlib

/-!
Shallow embedding of the CHIP-8 virtual machine core of this repository:
the register/memory model (`VM`), the instruction handlers of
`src/instructions.ts`, the dispatch loop `VM.execute` / `VM.next` /
`VM.tick` of `src/vm.ts`, and the sprite blitting of the `Display` class.

Conventions of the embedding:
* JS numbers holding machine quantities are modelled as `Nat`
  (with `Int` used where the source computes a possibly negative
  difference before storing it into a `Uint8Array`).
* A `Uint8Array` cell write stores the value modulo 256 and an
  out-of-bounds write is dropped, as in JS; an out-of-bounds read,
  which JS coerces to 0 under the bitwise operators and `Uint8Array`
  stores that consume it, is modelled as 0.
* The subroutine stack (a JS array used with push/pop at its end) is
  modelled as a list with its most recent element first.
* The `Display` and `Input` capabilities are modelled by the pure state
  they expose to the engine: a 64×32 pixel grid (`grid`) and the
  pressed-key predicate (`pressed`); the injected randomness source is
  a `rng` field consumed by the `Cxkk` handler.
* Throwing an error is modelled by the `Outcome.err` constructor, which
  carries the machine state at the moment of the throw (the source
  mutates in place, so mutations made before a throw are visible).
-/

/-- `nibble(op).first()` of utils.ts. -/
def nibFirst (op : Nat) : Nat := (op &&& 0xf000) >>> 12

/-- `nibble(op).second()` of utils.ts. -/
def nibSecond (op : Nat) : Nat := (op &&& 0x0f00) >>> 8

/-- `nibble(op).third()` of utils.ts. -/
def nibThird (op : Nat) : Nat := (op &&& 0x00f0) >>> 4

/-- `nibble(op).fourth()` of utils.ts. -/
def nibFourth (op : Nat) : Nat := op &&& 0x000f

/-- `nibble(op).without.first()` of utils.ts. -/
def withoutFirst (op : Nat) : Nat := op &&& 0x0fff

/-- `nibble(op).without.second()` of utils.ts. -/
def withoutSecond (op : Nat) : Nat := op &&& 0xf0ff

/-- `bcd` of utils.ts: the three decimal digits of a byte. -/
def bcd (v : Nat) : List Nat := [v / 100, (v / 10) % 10, (v % 100) % 10]

/-- The CHIP-8 key codes of `keyMap` in input.ts, in the order
`Object.keys` enumerates them (the numeric keys `1 2 3 4` first in
ascending order, then the letter keys in insertion order). -/
def keyMapCodes : List Nat := [1, 2, 3, 12, 4, 5, 6, 13, 7, 8, 9, 14, 10, 0, 11, 15]

/-- The state owned by the `VM` class of vm.ts, together with the state
of its `Display` and `Input` capabilities and the injected randomness. -/
structure VM where
  registers : Nat → Nat
  flags : Nat → Nat
  memory : Nat → Nat
  stack : List Nat
  counter : Nat
  address : Nat
  delayTimer : Nat
  soundTimer : Nat
  waitingForInput : Bool
  grid : Nat → Nat → Bool
  pressed : Nat → Bool
  rng : Nat

/-- Write to the sixteen-cell `registers` `Uint8Array`: the stored value
wraps modulo 256 and an out-of-range index is dropped. -/
def setReg (r : Nat → Nat) (i v : Nat) : Nat → Nat :=
  if i < 16 then Function.update r i (v % 256) else r

/-- Write of a JS number that may be negative (the subtraction opcodes)
to the `registers` `Uint8Array`: `ToUint8` is the mathematical mod 256. -/
def setRegInt (r : Nat → Nat) (i : Nat) (v : Int) : Nat → Nat :=
  if i < 16 then Function.update r i (v % 256).toNat else r

/-- Write to the eight-cell HP48 `flags` `Uint8Array`. -/
def setFlagReg (f : Nat → Nat) (i v : Nat) : Nat → Nat :=
  if i < 8 then Function.update f i (v % 256) else f

/-- Write to the 4096-byte `memory` `Uint8Array`. -/
def memWrite (m : Nat → Nat) (a v : Nat) : Nat → Nat :=
  if a < 4096 then Function.update m a (v % 256) else m

/-- Read of a `memory` cell as consumed by the source (an out-of-bounds
read is coerced to 0 by the bitwise operators / `Uint8Array` stores). -/
def memRead (m : Nat → Nat) (a : Nat) : Nat :=
  if a < 4096 then m a else 0

/-- `memory.slice(a, a + n)` of the Draw instruction: the `Uint8Array`
slice clamps to the valid index range. -/
def sliceMem (m : Nat → Nat) (a n : Nat) : List Nat :=
  (List.range n).filterMap (fun i => if a + i < 4096 then some (m (a + i)) else none)

/-- Update one pixel of the 64×32 display grid. -/
def setPix (g : Nat → Nat → Bool) (x y : Nat) (v : Bool) : Nat → Nat → Bool :=
  fun a b => if a = x ∧ b = y then v else g a b

/-- Body of the inner bit loop of `Display.drawSprite`: bit `x2` of row
byte `b` (row index `y2`) toggles the pixel at
`((x1 + (7 - x2)) % 64, (y1 + y2) % 32)` when set, and the collision
flag is raised when that pixel was already set. -/
def drawBit (x1 y1 y2 b : Nat) (acc : (Nat → Nat → Bool) × Bool) (x2 : Nat) :
    (Nat → Nat → Bool) × Bool :=
  if (b >>> x2) &&& 1 = 1 then
    let x := (x1 + (7 - x2)) % 64
    let y := (y1 + y2) % 32
    (setPix acc.1 x y (! acc.1 x y), acc.2 || acc.1 x y)
  else acc

/-- The row loop of `Display.drawSprite`: rows are processed in order,
carrying the row index `y2` (the `bytes.entries()` iteration). -/
def drawRows (x1 y1 : Nat) : Nat → List Nat → ((Nat → Nat → Bool) × Bool) →
    ((Nat → Nat → Bool) × Bool)
  | _, [], acc => acc
  | y2, b :: rest, acc =>
    drawRows x1 y1 (y2 + 1) rest ((List.range 8).foldl (drawBit x1 y1 y2 b) acc)

/-- `Display.drawSprite(x1, y1, bytes)`: returns the new grid and the
collision flag (`true` iff some already-set pixel was toggled off). -/
def drawSprite (g : Nat → Nat → Bool) (x1 y1 : Nat) (bytes : List Nat) :
    (Nat → Nat → Bool) × Bool :=
  drawRows x1 y1 0 bytes (g, false)

/-- The error kinds thrown by the engine: `OpcodeError`, `StackError`
and the plain `Error("Program counter corrupted")` of the `Bnnn` handler. -/
inductive Err where
  | opcode
  | stack
  | corrupted
deriving DecidableEq

/-- Result of executing one instruction: either the new state, or an
error together with the state at the moment of the throw. -/
inductive Outcome where
  | ok (s : VM)
  | err (e : Err) (s : VM)

/-- `VM.incrementCounter`. -/
def incCounter (s : VM) : VM := { s with counter := s.counter + 2 }

/-- The `skip` handler of instructions.ts (opcodes 3xkk, 4xkk, 5xy0, 9xy0). -/
def skip (op : Nat) (s : VM) : Outcome :=
  match op &&& 0xf000 with
  | 0x3000 =>
    .ok (incCounter (if s.registers (nibSecond op) = (op &&& 0x00ff) then incCounter s else s))
  | 0x4000 =>
    .ok (incCounter (if s.registers (nibSecond op) ≠ (op &&& 0x00ff) then incCounter s else s))
  | 0x5000 =>
    .ok (incCounter (if s.registers (nibSecond op) = s.registers (nibThird op) then incCounter s else s))
  | 0x9000 =>
    .ok (incCounter (if s.registers (nibSecond op) ≠ s.registers (nibThird op) then incCounter s else s))
  | _ => .err .opcode s

/-- The `subroutine` handler of instructions.ts (opcodes 0nnn, 00EE, 2nnn). -/
def subroutine (op : Nat) (s : VM) : Outcome :=
  match (if op ≠ 0xee then op &&& 0xf000 else op) with
  | 0x0000 => .ok (incCounter s)
  | 0x00ee =>
    match s.stack with
    | [] => .err .stack s
    | a :: rest => .ok (incCounter { s with counter := a, stack := rest })
  | 0x2000 => .ok { s with stack := s.counter :: s.stack, counter := withoutFirst op }
  | _ => .err .opcode s

/-- The `jump` handler of instructions.ts (opcodes 1nnn, Bnnn). The Bnnn
branch assigns the counter first and then throws if it reached 0x1000
(`SIXTEEN_BIT_WRAP` of instructions.ts is the constant 0x1000). -/
def jump (op : Nat) (s : VM) : Outcome :=
  match op &&& 0xf000 with
  | 0x1000 => .ok { s with counter := withoutFirst op }
  | 0xb000 =>
    let c := withoutFirst op + s.registers 0
    if c ≥ 0x1000 then .err .corrupted { s with counter := c }
    else .ok { s with counter := c }
  | _ => .err .opcode s

/-- The `timer` handler of instructions.ts (opcodes Fx07, Fx15, Fx18). -/
def timer (op : Nat) (s : VM) : Outcome :=
  match op &&& 0x00ff with
  | 0x07 => .ok (incCounter { s with registers := setReg s.registers (nibSecond op) s.delayTimer })
  | 0x15 => .ok (incCounter { s with delayTimer := s.registers (nibSecond op) })
  | 0x18 => .ok (incCounter { s with soundTimer := s.registers (nibSecond op) })
  | _ => .err .opcode s

/-- The `betweenRegisters` handler of instructions.ts (the 8xy_ family).
Writes are sequential, so a later read of a cell written earlier in the
same case (the shift cases re-read `registers[register1]` after the VF
write) sees the updated array. -/
def betweenRegisters (op : Nat) (s : VM) : Outcome :=
  let r1 := nibSecond op
  let r2 := nibThird op
  match op &&& 0x000f with
  | 0x0 => .ok (incCounter { s with registers := setReg s.registers r1 (s.registers r2) })
  | 0x1 => .ok (incCounter { s with registers := setReg s.registers r1 (s.registers r1 ||| s.registers r2) })
  | 0x2 => .ok (incCounter { s with registers := setReg s.registers r1 (s.registers r1 &&& s.registers r2) })
  | 0x3 => .ok (incCounter { s with registers := setReg s.registers r1 (s.registers r1 ^^^ s.registers r2) })
  | 0x4 =>
    let sum := s.registers r1 + s.registers r2
    .ok (incCounter
      { s with registers := setReg (setReg s.registers r1 sum) 0xf (if sum ≥ 256 then 1 else 0) })
  | 0x5 =>
    let sub : Int := (s.registers r1 : Int) - (s.registers r2 : Int)
    .ok (incCounter
      { s with registers := setReg (setRegInt s.registers r1 sub) 0xf (if sub < 0 then 0 else 1) })
  | 0x6 =>
    let f := setReg s.registers 0xf (s.registers r1 &&& 0x1)
    .ok (incCounter { s with registers := setReg f r1 (f r1 >>> 1) })
  | 0x7 =>
    let sub : Int := (s.registers r2 : Int) - (s.registers r1 : Int)
    .ok (incCounter
      { s with registers := setReg (setRegInt s.registers r1 sub) 0xf (if sub < 0 then 0 else 1) })
  | 0xe =>
    let f := setReg s.registers 0xf (s.registers r1 >>> 7)
    .ok (incCounter { s with registers := setReg f r1 ((f r1 <<< 1) &&& 0xff) })
  | _ => .err .opcode s

/-- The `register` handler of instructions.ts (opcodes 6xkk, 7xkk, Cxkk). -/
def register (op : Nat) (s : VM) : Outcome :=
  let r := nibSecond op
  let v := op &&& 0x00ff
  match op &&& 0xf000 with
  | 0x6000 => .ok (incCounter { s with registers := setReg s.registers r v })
  | 0x7000 => .ok (incCounter { s with registers := setReg s.registers r (s.registers r + v) })
  | 0xc000 => .ok (incCounter { s with registers := setReg s.registers r (op &&& 0x00ff &&& (s.rng % 256)) })
  | _ => .err .opcode s

/-- One iteration of the Fx55 loop: store a register byte at the running
address, then advance the address register. -/
def dumpStep (t : VM) (r : Nat) : VM :=
  { t with memory := memWrite t.memory t.address (t.registers r), address := t.address + 1 }

/-- One iteration of the Fx65 loop: load a register from the running
address, then advance the address register. -/
def loadStep (t : VM) (r : Nat) : VM :=
  { t with registers := setReg t.registers r (memRead t.memory t.address), address := t.address + 1 }

/-- The `memory` handler of instructions.ts (opcodes Annn, Fx1E, Fx55,
Fx65, Fx33, Fx29). -/
def memory (op : Nat) (s : VM) : Outcome :=
  if op &&& 0xf000 = 0xa000 then
    .ok (incCounter { s with address := withoutFirst op })
  else if withoutSecond op = 0xf01e then
    let newAddress := s.address + s.registers (nibSecond op)
    .ok (incCounter
      { s with registers := setReg s.registers 0xf (if newAddress ≥ 0x1000 then 1 else 0),
               address := newAddress % 0x1000 })
  else if withoutSecond op = 0xf055 then
    .ok (incCounter ((List.range (nibSecond op + 1)).foldl dumpStep s))
  else if withoutSecond op = 0xf065 then
    .ok (incCounter ((List.range (nibSecond op + 1)).foldl loadStep s))
  else if withoutSecond op = 0xf033 then
    let digits := bcd (s.registers (nibSecond op))
    .ok (incCounter
      { s with memory := (digits.enum).foldl (fun m d => memWrite m (s.address + d.1) d.2) s.memory })
  else if withoutSecond op = 0xf029 then
    .ok (incCounter { s with address := s.registers (nibSecond op) * 5 })
  else .err .opcode s

/-- The `display` handler of instructions.ts (opcodes 00E0, Dxyn). -/
def display (op : Nat) (s : VM) : Outcome :=
  if op = 0x00e0 then
    .ok (incCounter { s with grid := fun _ _ => false })
  else if nibFirst op = 0xd then
    let bytes := sliceMem s.memory s.address (nibFourth op)
    let res := drawSprite s.grid (s.registers (nibSecond op)) (s.registers (nibThird op)) bytes
    .ok (incCounter
      { s with grid := res.1, registers := setReg s.registers 0xf (if res.2 then 1 else 0) })
  else .err .opcode s

/-- The `input` handler of instructions.ts (opcodes Fx0A, ExA1, Ex9E).
The Fx0A loop over `keyMap` is `List.find?` over the key codes in
enumeration order: the first pressed key resolves the wait. -/
def input (op : Nat) (s : VM) : Outcome :=
  let key := s.registers (nibSecond op)
  match withoutSecond op with
  | 0xf00a =>
    let w := { s with waitingForInput := true }
    match keyMapCodes.find? w.pressed with
    | some k =>
      .ok { w with waitingForInput := false,
                   registers := setReg w.registers (nibSecond op) k,
                   counter := w.counter + 2 }
    | none => .ok w
  | 0xe0a1 => .ok (incCounter (if s.pressed key = false then incCounter s else s))
  | 0xe09e => .ok (incCounter (if s.pressed key = true then incCounter s else s))
  | _ => .err .opcode s

/-- `VM.execute` of vm.ts (the current class with display and input):
the two-level opcode dispatch. The Fx75/Fx85 HP48 loops are inlined in
the source and inlined here. -/
def execute (op : Nat) (s : VM) : Outcome :=
  if op &&& 0xf000 = 0x1000 ∨ op &&& 0xf000 = 0xb000 then jump op s
  else if op &&& 0xf000 = 0x0000 then
    if op = 0x00e0 then display op s else subroutine op s
  else if op &&& 0xf000 = 0x2000 then subroutine op s
  else if op &&& 0xf000 = 0x3000 ∨ op &&& 0xf000 = 0x4000 ∨
          op &&& 0xf000 = 0x5000 ∨ op &&& 0xf000 = 0x9000 then skip op s
  else if op &&& 0xf000 = 0x6000 ∨ op &&& 0xf000 = 0x7000 ∨
          op &&& 0xf000 = 0xc000 then register op s
  else if op &&& 0xf000 = 0x8000 then betweenRegisters op s
  else if op &&& 0xf000 = 0xa000 then memory op s
  else if op &&& 0xf000 = 0xd000 then display op s
  else if op &&& 0xf000 = 0xe000 then input op s
  else if op &&& 0xf000 = 0xf000 then
    if op &&& 0x00ff = 0x0a then input op s
    else if op &&& 0x00ff = 0x07 ∨ op &&& 0x00ff = 0x15 ∨ op &&& 0x00ff = 0x18 then timer op s
    else if op &&& 0x00ff = 0x1e ∨ op &&& 0x00ff = 0x29 ∨ op &&& 0x00ff = 0x33 ∨
            op &&& 0x00ff = 0x55 ∨ op &&& 0x00ff = 0x65 then memory op s
    else if op &&& 0x00ff = 0x75 then
      .ok (incCounter { s with flags :=
        (List.range (nibSecond op + 1)).foldl (fun f i => setFlagReg f i (s.registers i)) s.flags })
    else if op &&& 0x00ff = 0x85 then
      .ok (incCounter { s with registers :=
        (List.range (nibSecond op + 1)).foldl (fun r i => setReg r i (s.flags i)) s.registers })
    else .err .opcode s
  else .err .opcode s

/-- The big-endian instruction fetch of `VM.next`. -/
def fetchOp (s : VM) : Nat :=
  (memRead s.memory s.counter <<< 8) ||| memRead s.memory (s.counter + 1)

/-- `VM.next`: fetch and execute one instruction. -/
def next (s : VM) : Outcome :=
  execute (fetchOp s) s

/-- `VM.tick` of vm.ts: conditionally decrement the two timers, then run
the instruction loop `Math.round(CLOCKSPEED / 60)` = 10 times (an error
thrown by an instruction aborts the loop and propagates, as in the
source). -/
def tick (s : VM) : Outcome :=
  let s1 :=
    if s.waitingForInput = false then
      { s with delayTimer := if 0 < s.delayTimer then s.delayTimer - 1 else s.delayTimer,
               soundTimer := if 0 < s.soundTimer then s.soundTimer - 1 else s.soundTimer }
    else s
  (List.range (600 / 60)).foldl
    (fun o _ => match o with | .ok t => next t | e => e) (.ok s1)

/-- `n`-fold iteration of `VM.next`, propagating a thrown error. -/
def nextTimes : Nat → VM → Outcome
  | 0, s => .ok s
  | n + 1, s =>
    match next s with
    | .ok t => nextTimes n t
    | e => e

def stepOutcome (o : Outcome) : Outcome :=
  match o with
  | .ok t => next t
  | e => e

def stepN : Nat → Outcome → Outcome
  | 0, o => o
  | n + 1, o => stepN n (stepOutcome o)

def okAddr (o : Outcome) : Option Nat :=
  match o with
  | .ok t => some t.address
  | .err _ _ => none

def okCtr (o : Outcome) : Option Nat :=
  match o with
  | .ok t => some t.counter
  | .err _ _ => none

def okRegAt (o : Outcome) (i : Nat) : Option Nat :=
  match o with
  | .ok t => some (t.registers i)
  | .err _ _ => none

def dumpN (s : VM) (n : Nat) : VM := (List.range n).foldl dumpStep s

def loadN (s : VM) (n : Nat) : VM := (List.range n).foldl loadStep s

/-- PC effects the spec calls an explicit redirect: jump (1nnn, Bnnn),
call (2nnn) and return (00EE). -/
def explicitlyRedirects (op : Nat) : Prop :=
  op &&& 0xf000 = 0x1000 ∨ op &&& 0xf000 = 0xb000 ∨ op &&& 0xf000 = 0x2000 ∨ op = 0x00ee

def pcPolicyNoException : Prop :=
  ∀ op s t, execute op s = .ok t →
    explicitlyRedirects op ∨ t.counter = s.counter + 2 ∨ t.counter = s.counter + 4

def jumpOffsetMod65536NoError : Prop :=
  ∀ op s, op &&& 0xf000 = 0xb000 →
    ∃ t, execute op s = .ok t ∧ t.counter = (withoutFirst op + s.registers 0) % 65536

def addToIMod65536 : Prop :=
  ∀ op s, withoutSecond op = 0xf01e →
    ∃ t, execute op s = .ok t ∧ t.address = (s.address + s.registers (nibSecond op)) % 65536

def addStoresSumAndCarry : Prop :=
  ∀ op s, op &&& 0xf000 = 0x8000 → op &&& 0x000f = 0x4 →
    ∃ t, execute op s = .ok t ∧
      t.registers (nibSecond op) = (s.registers (nibSecond op) + s.registers (nibThird op)) % 256 ∧
      t.registers 0xf = (if s.registers (nibSecond op) + s.registers (nibThird op) ≥ 256 then 1 else 0)

/-- The pixel targeted by bit `x2` of row byte `b` at row index `y2`,
when that bit is set. -/
def bitTarget (x1 y1 y2 b x2 : Nat) : Option (Nat × Nat) :=
  if (b >>> x2) &&& 1 = 1 then some ((x1 + (7 - x2)) % 64, (y1 + y2) % 32) else none

/-- The pixels targeted by the set bits of one sprite row. -/
def rowTargets (x1 y1 y2 b : Nat) : List (Nat × Nat) :=
  (List.range 8).filterMap (bitTarget x1 y1 y2 b)

/-- The pixels targeted by the set bits of a sprite, rows numbered from `n`. -/
def spriteTargetsFrom (x1 y1 : Nat) : Nat → List Nat → List (Nat × Nat)
  | _, [] => []
  | y2, b :: rest => rowTargets x1 y1 y2 b ++ spriteTargetsFrom x1 y1 (y2 + 1) rest

/-- The pixels targeted by the set bits of a sprite drawn at `(x1, y1)`. -/
def spriteTargets (x1 y1 : Nat) (bytes : List Nat) : List (Nat × Nat) :=
  spriteTargetsFrom x1 y1 0 bytes

/-- Toggle a list of pixels in order, accumulating the collision flag. -/
def togglePixels (acc : (Nat → Nat → Bool) × Bool) (ps : List (Nat × Nat)) :
    (Nat → Nat → Bool) × Bool :=
  ps.foldl (fun a p => (setPix a.1 p.1 p.2 (! a.1 p.1 p.2), a.2 || a.1 p.1 p.2)) acc


/-- A concrete machine state: the constructed engine before a ROM is
loaded, with an all-false key state and a cleared display (font data is
irrelevant to the properties below, so memory is all zero). -/
def vm0 : VM :=
  { registers := fun _ => 0, flags := fun _ => 0, memory := fun _ => 0, stack := [],
    counter := 0x200, address := 0, delayTimer := 0, soundTimer := 0,
    waitingForInput := false, grid := fun _ _ => false, pressed := fun _ => false, rng := 0 }

/-- State with the bytes of opcode FA0A placed at the program counter. -/
def vmWait : VM :=
  { vm0 with memory := memWrite (memWrite vm0.memory 0x200 0xfa) 0x201 0x0a }

/-- The state produced by executing 00E0 (clear screen) from `vm0`. -/
def vmCleared : VM := incCounter { vm0 with grid := fun _ _ => false }

def vmV01 : VM := { vm0 with registers := setReg vm0.registers 0 1 }

def vmI : VM := { vmV01 with address := 0xfff }

def vmF5 : VM := { vm0 with registers := setReg vm0.registers 0xf 5 }



theorem foldl_const_step (l : List Nat) (o : Outcome) :
    l.foldl (fun o _ => stepOutcome o) o = stepN l.length o := by
  induction l generalizing o with
  | nil => rfl
  | cons a t ih => simpa [stepN] using ih (stepOutcome o)

theorem stepN_err (n : Nat) (e : Err) (t : VM) : stepN n (.err e t) = .err e t := by
  induction n with
  | zero => rfl
  | succ n ih => simpa [stepN, stepOutcome] using ih

theorem stepN_ok (n : Nat) (s : VM) : stepN n (.ok s) = nextTimes n s := by
  induction n generalizing s with
  | zero => rfl
  | succ n ih =>
    show stepN n (stepOutcome (.ok s)) = _
    simp only [stepOutcome, nextTimes]
    cases h : next s with
    | ok t => exact ih t
    | err e t => exact stepN_err n e t

theorem and_narrow {op M V : Nat} (h : op &&& M = V) (m : Nat) (hm : M &&& m = m) :
    op &&& m = V &&& m := by
  calc op &&& m = op &&& (M &&& m) := by rw [hm]
    _ = op &&& M &&& m := (Nat.and_assoc op M m).symm
    _ = V &&& m := by rw [h]

theorem nibSecond_lt (op : Nat) : nibSecond op < 16 := by
  have h : op &&& 0x0f00 ≤ 0x0f00 := Nat.and_le_right
  unfold nibSecond
  rw [Nat.shiftRight_eq_div_pow]
  omega

theorem setReg_same (r : Nat → Nat) (i v : Nat) (h : i < 16) : setReg r i v i = v % 256 := by
  unfold setReg
  rw [if_pos h, Function.update_same]

theorem setReg_other (r : Nat → Nat) {i j : Nat} (v : Nat) (h : j ≠ i) : setReg r i v j = r j := by
  unfold setReg
  split
  · rw [Function.update_noteq h]
  · rfl

theorem setPix_same (g : Nat → Nat → Bool) (x y : Nat) (v : Bool) : setPix g x y v x y = v := by
  show (if x = x ∧ y = y then v else g x y) = v
  rw [if_pos ⟨rfl, rfl⟩]

theorem setPix_other (g : Nat → Nat → Bool) (x y : Nat) (v : Bool) (a b : Nat)
    (h : ¬(a = x ∧ b = y)) : setPix g x y v a b = g a b := by
  show (if a = x ∧ b = y then v else g a b) = g a b
  rw [if_neg h]

theorem dumpN_succ (s : VM) (n : Nat) : dumpN s (n + 1) = dumpStep (dumpN s n) n := by
  unfold dumpN
  rw [List.range_succ, List.foldl_append, List.foldl_cons, List.foldl_nil]

theorem loadN_succ (s : VM) (n : Nat) : loadN s (n + 1) = loadStep (loadN s n) n := by
  unfold loadN
  rw [List.range_succ, List.foldl_append, List.foldl_cons, List.foldl_nil]

theorem dumpN_facts (s : VM) (n : Nat) :
    (dumpN s n).address = s.address + n ∧ (dumpN s n).registers = s.registers ∧
    (dumpN s n).counter = s.counter ∧
    ∀ a, (dumpN s n).memory a =
      if s.address ≤ a ∧ a < s.address + n ∧ a < 4096 then s.registers (a - s.address) % 256
      else s.memory a := by
  induction n with
  | zero =>
    refine ⟨rfl, rfl, rfl, fun a => ?_⟩
    rw [if_neg (by omega)]
    rfl
  | succ n ih =>
    obtain ⟨ha, hr, hc, hm⟩ := ih
    rw [dumpN_succ]
    refine ⟨by simp [dumpStep, ha]; omega, by simp [dumpStep, hr], by simp [dumpStep, hc], fun a => ?_⟩
    show memWrite (dumpN s n).memory (dumpN s n).address ((dumpN s n).registers n) a = _
    rw [ha, hr]
    unfold memWrite
    by_cases hlt : s.address + n < 4096
    · rw [if_pos hlt]
      by_cases hae : a = s.address + n
      · subst hae
        rw [Function.update_same, if_pos (by omega),
          show s.address + n - s.address = n from by omega]
      · rw [Function.update_noteq hae, hm a]
        by_cases hin : s.address ≤ a ∧ a < s.address + n ∧ a < 4096
        · rw [if_pos hin, if_pos (by omega)]
        · rw [if_neg hin, if_neg (by omega)]
    · rw [if_neg hlt, hm a]
      by_cases hin : s.address ≤ a ∧ a < s.address + n ∧ a < 4096
      · rw [if_pos hin, if_pos (by omega)]
      · rw [if_neg hin, if_neg (by omega)]

theorem loadN_facts (s : VM) (n : Nat) :
    (loadN s n).address = s.address + n ∧ (loadN s n).memory = s.memory ∧
    (loadN s n).counter = s.counter ∧
    ∀ j, (loadN s n).registers j =
      if j < n ∧ j < 16 then memRead s.memory (s.address + j) % 256
      else s.registers j := by
  induction n with
  | zero =>
    refine ⟨rfl, rfl, rfl, fun j => ?_⟩
    rw [if_neg (by omega)]
    rfl
  | succ n ih =>
    obtain ⟨ha, hm, hc, hr⟩ := ih
    rw [loadN_succ]
    refine ⟨by simp [loadStep, ha]; omega, by simp [loadStep, hm], by simp [loadStep, hc], fun j => ?_⟩
    show setReg (loadN s n).registers n (memRead (loadN s n).memory (loadN s n).address) j = _
    rw [ha, hm]
    unfold setReg
    by_cases hn : n < 16
    · rw [if_pos hn]
      by_cases hje : j = n
      · subst hje
        rw [Function.update_same, if_pos (by omega)]
      · rw [Function.update_noteq hje, hr j]
        by_cases hin : j < n ∧ j < 16
        · rw [if_pos hin, if_pos (by omega)]
        · rw [if_neg hin, if_neg (by omega)]
    · rw [if_neg hn, hr j]
      by_cases hin : j < n ∧ j < 16
      · rw [if_pos hin, if_pos (by omega)]
      · rw [if_neg hin, if_neg (by omega)]

theorem find_of_unique {p : Nat → Bool} {l : List Nat} {k : Nat}
    (hmem : k ∈ l) (hk : p k = true) (hothers : ∀ j ∈ l, j ≠ k → p j = false) :
    l.find? p = some k := by
  induction l with
  | nil => cases hmem
  | cons a t ih =>
    by_cases hpa : p a = true
    · have hak : a = k := by
        by_contra hne
        rw [hothers a (List.mem_cons_self a t) hne] at hpa
        exact Bool.noConfusion hpa
      rw [List.find?_cons_of_pos _ hpa, hak]
    · have hpa' : p a = false := by
        cases h : p a
        · rfl
        · exact absurd h hpa
      have hkt : k ∈ t := by
        rcases List.mem_cons.mp hmem with h | h
        · subst h
          rw [hk] at hpa'
          exact Bool.noConfusion hpa'
        · exact h
      rw [List.find?_cons_of_neg _ hpa]
      exact ih hkt (fun j hj hne => hothers j (List.mem_cons_of_mem a hj) hne)

theorem keyMapCodes_lt (k : Nat) (h : k ∈ keyMapCodes) : k < 16 := by
  fin_cases h <;> decide

theorem mem_keyMapCodes (k : Nat) (h : k < 16) : k ∈ keyMapCodes := by
  interval_cases k <;> decide

theorem skip_counter {op : Nat} {s t : VM} (h : skip op s = .ok t) :
    t.counter = s.counter + 2 ∨ t.counter = s.counter + 4 := by
  unfold skip at h
  split at h <;>
    first
      | exact Outcome.noConfusion h
      | · injection h with h
          subst h
          split <;> simp [incCounter]

theorem timer_counter {op : Nat} {s t : VM} (h : timer op s = .ok t) :
    t.counter = s.counter + 2 := by
  unfold timer at h
  split at h <;>
    first
      | exact Outcome.noConfusion h
      | · injection h with h
          subst h
          rfl

theorem register_counter {op : Nat} {s t : VM} (h : register op s = .ok t) :
    t.counter = s.counter + 2 := by
  unfold register at h
  split at h <;>
    first
      | exact Outcome.noConfusion h
      | · injection h with h
          subst h
          rfl

theorem betweenRegisters_counter {op : Nat} {s t : VM} (h : betweenRegisters op s = .ok t) :
    t.counter = s.counter + 2 := by
  unfold betweenRegisters at h
  split at h <;>
    first
      | exact Outcome.noConfusion h
      | · injection h with h
          subst h
          rfl

theorem memory_counter {op : Nat} {s t : VM} (h : memory op s = .ok t) :
    t.counter = s.counter + 2 := by
  unfold memory at h
  split at h
  · injection h with h
    subst h
    rfl
  · split at h
    · injection h with h
      subst h
      rfl
    · split at h
      · injection h with h
        subst h
        have := (dumpN_facts s (nibSecond op + 1)).2.2.1
        simp [incCounter, dumpN] at this ⊢
        omega
      · split at h
        · injection h with h
          subst h
          have := (loadN_facts s (nibSecond op + 1)).2.2.1
          simp [incCounter, loadN] at this ⊢
          omega
        · split at h
          · injection h with h
            subst h
            rfl
          · split at h
            · injection h with h
              subst h
              rfl
            · exact Outcome.noConfusion h

theorem display_counter {op : Nat} {s t : VM} (h : display op s = .ok t) :
    t.counter = s.counter + 2 := by
  unfold display at h
  split at h
  · injection h with h
    subst h
    rfl
  · split at h
    · injection h with h
      subst h
      rfl
    · exact Outcome.noConfusion h

theorem input_counter {op : Nat} {s t : VM} (h : input op s = .ok t) :
    t.counter = s.counter + 2 ∨ t.counter = s.counter + 4 ∨
      (withoutSecond op = 0xf00a ∧ t.counter = s.counter) := by
  unfold input at h
  split at h
  case _ heq =>
    dsimp only at h
    split at h
    · injection h with h
      subst h
      left
      rfl
    · injection h with h
      subst h
      right; right
      exact ⟨heq, rfl⟩
  case _ heq =>
    injection h with h
    subst h
    split <;> simp [incCounter]
  case _ heq =>
    injection h with h
    subst h
    split <;> simp [incCounter]
  case _ => exact Outcome.noConfusion h

theorem subroutine_counter {op : Nat} {s t : VM} (h : subroutine op s = .ok t) :
    t.counter = s.counter + 2 ∨ op = 0xee ∨ op &&& 0xf000 = 0x2000 ∨ op &&& 0xf000 = 0xee := by
  unfold subroutine at h
  split at h
  case _ heq =>
    injection h with h
    subst h
    left
    rfl
  case _ heq =>
    right
    split at heq
    · right; right
      exact heq
    · left
      omega
  case _ heq =>
    right; right; left
    split at heq
    · exact heq
    · omega
  case _ => exact Outcome.noConfusion h

theorem togglePixels_append (acc : (Nat → Nat → Bool) × Bool) (l1 l2 : List (Nat × Nat)) :
    togglePixels acc (l1 ++ l2) = togglePixels (togglePixels acc l1) l2 :=
  List.foldl_append _ _ l1 l2

theorem row_fusion (x1 y1 y2 b : Nat) (l : List Nat) (acc : (Nat → Nat → Bool) × Bool) :
    l.foldl (drawBit x1 y1 y2 b) acc = togglePixels acc (l.filterMap (bitTarget x1 y1 y2 b)) := by
  induction l generalizing acc with
  | nil => rfl
  | cons a t ih =>
    rw [List.foldl_cons]
    by_cases hb : (b >>> a) &&& 1 = 1
    · rw [List.filterMap_cons_some (show bitTarget x1 y1 y2 b a = some ((x1 + (7 - a)) % 64, (y1 + y2) % 32) from by rw [bitTarget, if_pos hb])]
      have hd : drawBit x1 y1 y2 b acc a = (setPix acc.1 ((x1 + (7 - a)) % 64) ((y1 + y2) % 32) (! acc.1 ((x1 + (7 - a)) % 64) ((y1 + y2) % 32)), acc.2 || acc.1 ((x1 + (7 - a)) % 64) ((y1 + y2) % 32)) := by
        rw [drawBit, if_pos hb]
      rw [hd]
      exact ih _
    · rw [List.filterMap_cons_none (show bitTarget x1 y1 y2 b a = none from by rw [bitTarget, if_neg hb])]
      rw [show drawBit x1 y1 y2 b acc a = acc from by rw [drawBit, if_neg hb]]
      exact ih acc

theorem rows_fusion (x1 y1 : Nat) (bytes : List Nat) :
    ∀ (n : Nat) (acc : (Nat → Nat → Bool) × Bool),
      drawRows x1 y1 n bytes acc = togglePixels acc (spriteTargetsFrom x1 y1 n bytes) := by
  induction bytes with
  | nil => intro n acc; rfl
  | cons b rest ih =>
    intro n acc
    show drawRows x1 y1 (n + 1) rest ((List.range 8).foldl (drawBit x1 y1 n b) acc) = _
    rw [ih (n + 1), row_fusion]
    show _ = togglePixels acc (rowTargets x1 y1 n b ++ spriteTargetsFrom x1 y1 (n + 1) rest)
    rw [togglePixels_append]
    rfl

theorem any_eq_of_mem_eq {α : Type} {l : List α} {p q : α → Bool}
    (h : ∀ a ∈ l, p a = q a) : l.any p = l.any q := by
  induction l with
  | nil => rfl
  | cons a t ih =>
    rw [List.any_cons, List.any_cons, h a (List.mem_cons_self a t),
      ih (fun x hx => h x (List.mem_cons_of_mem a hx))]

theorem togglePixels_of_nodup (ps : List (Nat × Nat)) :
    ∀ (g : Nat → Nat → Bool) (fl : Bool), ps.Nodup →
      togglePixels (g, fl) ps =
        (fun a b => if (a, b) ∈ ps then ! g a b else g a b,
         fl || ps.any (fun p => g p.1 p.2)) := by
  induction ps with
  | nil =>
    intro g fl _
    refine Prod.ext ?_ ?_
    · funext a b
      show g a b = if (a, b) ∈ ([] : List (Nat × Nat)) then ! g a b else g a b
      rw [if_neg (List.not_mem_nil (a, b))]
    · show fl = (fl || ([] : List (Nat × Nat)).any (fun p => g p.1 p.2))
      rw [List.any_nil, Bool.or_false]
  | cons p t ih =>
    intro g fl hnd
    have hp : p ∉ t := (List.nodup_cons.mp hnd).1
    have ht : t.Nodup := (List.nodup_cons.mp hnd).2
    show togglePixels (setPix g p.1 p.2 (! g p.1 p.2), fl || g p.1 p.2) t = _
    rw [ih _ _ ht]
    refine Prod.ext ?_ ?_
    · funext a b
      show (if (a, b) ∈ t then ! setPix g p.1 p.2 (! g p.1 p.2) a b
            else setPix g p.1 p.2 (! g p.1 p.2) a b) =
        (if (a, b) ∈ p :: t then ! g a b else g a b)
      by_cases hab : (a, b) = p
      · have ha : a = p.1 := by rw [← hab]
        have hb : b = p.2 := by rw [← hab]
        rw [if_neg (fun hmem => hp (hab ▸ hmem)),
          if_pos (show (a, b) ∈ p :: t from by rw [hab]; exact List.mem_cons_self p t)]
        rw [ha, hb, setPix_same]
      · have hpix : setPix g p.1 p.2 (! g p.1 p.2) a b = g a b :=
          setPix_other _ _ _ _ _ _ (fun hc => hab (Prod.ext hc.1 hc.2))
        rw [hpix]
        by_cases hmem : (a, b) ∈ t
        · rw [if_pos hmem, if_pos (List.mem_cons_of_mem p hmem)]
        · rw [if_neg hmem, if_neg (fun hc => (List.mem_cons.mp hc).elim (fun he => hab he) hmem)]
    · show ((fl || g p.1 p.2) || t.any (fun q => setPix g p.1 p.2 (! g p.1 p.2) q.1 q.2)) =
        (fl || (p :: t).any (fun q => g q.1 q.2))
      have hany : t.any (fun q => setPix g p.1 p.2 (! g p.1 p.2) q.1 q.2) =
          t.any (fun q => g q.1 q.2) := by
        refine any_eq_of_mem_eq (fun q hq => ?_)
        have hqp : q ≠ p := fun he => hp (he ▸ hq)
        exact setPix_other _ _ _ _ _ _ (fun hc => hqp (Prod.ext hc.1 hc.2))
      rw [hany, List.any_cons, Bool.or_assoc]

theorem mem_rowTargets {x1 y1 y2 b : Nat} {p : Nat × Nat} (h : p ∈ rowTargets x1 y1 y2 b) :
    p.2 = (y1 + y2) % 32 ∧ ∃ x2, x2 < 8 ∧ p.1 = (x1 + (7 - x2)) % 64 := by
  obtain ⟨x2, hx2, hb⟩ := List.mem_filterMap.mp h
  rw [bitTarget] at hb
  split at hb
  · injection hb with hb
    rw [← hb]
    exact ⟨rfl, x2, List.mem_range.mp hx2, rfl⟩
  · exact Option.noConfusion hb

theorem rowTargets_sublist (x1 y1 y2 b : Nat) :
    List.Sublist (rowTargets x1 y1 y2 b)
      ((List.range 8).map (fun x2 => ((x1 + (7 - x2)) % 64, (y1 + y2) % 32))) := by
  unfold rowTargets
  induction (List.range 8) with
  | nil => simp
  | cons a t ih =>
    by_cases hb : (b >>> a) &&& 1 = 1
    · rw [List.filterMap_cons_some (show bitTarget x1 y1 y2 b a = some ((x1 + (7 - a)) % 64, (y1 + y2) % 32) from by rw [bitTarget, if_pos hb]), List.map_cons]
      exact List.Sublist.cons₂ _ ih
    · rw [List.filterMap_cons_none (show bitTarget x1 y1 y2 b a = none from by rw [bitTarget, if_neg hb]), List.map_cons]
      exact List.Sublist.cons _ ih

theorem rowTargets_nodup (x1 y1 y2 b : Nat) : (rowTargets x1 y1 y2 b).Nodup := by
  refine List.Nodup.sublist (rowTargets_sublist x1 y1 y2 b) ?_
  refine List.Nodup.map_on ?_ (List.nodup_range 8)
  intro a ha b2 hb2 he
  have ha8 : a < 8 := List.mem_range.mp ha
  have hb8 : b2 < 8 := List.mem_range.mp hb2
  have h1 : (x1 + (7 - a)) % 64 = (x1 + (7 - b2)) % 64 := congrArg Prod.fst he
  omega

theorem mem_spriteTargetsFrom {x1 y1 : Nat} {p : Nat × Nat} :
    ∀ (bytes : List Nat) (n : Nat), p ∈ spriteTargetsFrom x1 y1 n bytes →
      ∃ k, k < bytes.length ∧ p.2 = (y1 + (n + k)) % 32 := by
  intro bytes
  induction bytes with
  | nil =>
    intro n h
    exact absurd h (List.not_mem_nil p)
  | cons b rest ih =>
    intro n h
    rcases List.mem_append.mp h with h | h
    · exact ⟨0, by simp, by rw [Nat.add_zero]; exact (mem_rowTargets h).1⟩
    · obtain ⟨k, hk, hp⟩ := ih (n + 1) h
      refine ⟨k + 1, by simpa using hk, ?_⟩
      rw [hp]
      congr 1
      omega

theorem spriteTargetsFrom_nodup (x1 y1 : Nat) :
    ∀ (bytes : List Nat) (n : Nat), bytes.length ≤ 32 →
      (spriteTargetsFrom x1 y1 n bytes).Nodup := by
  intro bytes
  induction bytes with
  | nil =>
    intro n _
    exact List.nodup_nil
  | cons b rest ih =>
    intro n hlen
    rw [show spriteTargetsFrom x1 y1 n (b :: rest) =
      rowTargets x1 y1 n b ++ spriteTargetsFrom x1 y1 (n + 1) rest from rfl]
    rw [List.nodup_append]
    refine ⟨rowTargets_nodup x1 y1 n b, ih (n + 1) (by simp at hlen; omega), ?_⟩
    intro p hprow hpfrom
    have h1 : p.2 = (y1 + n) % 32 := (mem_rowTargets hprow).1
    obtain ⟨k, hk, h2⟩ := mem_spriteTargetsFrom rest (n + 1) hpfrom
    rw [h1] at h2
    have hklen : k < 31 := by
      simp at hlen
      omega
    omega

/-- Claim C2: one call to `tick` first decrements each currently nonzero
timer by exactly 1 when the engine is not in the input-wait state (a timer
at 0 stays 0, since the decrement is the truncated `Nat` subtraction), and
leaves both timers unchanged when it is waiting; in either case it then
invokes `next` (`step`) exactly 10 times. -/
theorem tick_timers_then_budget (s : VM) :
    tick s = nextTimes 10
      (if s.waitingForInput then s
       else { s with delayTimer := s.delayTimer - 1, soundTimer := s.soundTimer - 1 }) := by
  show (List.range (600 / 60)).foldl (fun o _ => stepOutcome o) (.ok _) = _
  rw [foldl_const_step, List.length_range, show (600 / 60 : Nat) = 10 from rfl, stepN_ok]
  cases h : s.waitingForInput with
  | true => simp [h]
  | false =>
    have h1 : (if 0 < s.delayTimer then s.delayTimer - 1 else s.delayTimer) = s.delayTimer - 1 := by
      split <;> omega
    have h2 : (if 0 < s.soundTimer then s.soundTimer - 1 else s.soundTimer) = s.soundTimer - 1 := by
      split <;> omega
    simp only [h, Bool.false_eq_true, if_false, if_true, h1, h2]

/-- Claim C9: executing 00EE with an empty call stack raises `StackError`,
the error propagates out of the `next` (`step`) call, and the carried
machine state is exactly the pre-instruction state, i.e. nothing was
mutated by the failed instruction. -/
theorem ret_empty_stack (s : VM) (h : s.stack = []) :
    execute 0x00ee s = .err .stack s ∧ (fetchOp s = 0x00ee → next s = .err .stack s) := by
  have hx : execute 0x00ee s = .err .stack s := by
    simp [execute, subroutine, h]
    decide
  refine ⟨hx, fun hf => ?_⟩
  rw [next, hf]
  exact hx

/-- Claim C6: executing 2nnn and then 00EE leaves the program counter at
the address of the call instruction plus 2, and restores the call stack to
its contents from before the call; the intermediate state runs at nnn. -/
theorem call_ret (op : Nat) (s : VM) (hop : op &&& 0xf000 = 0x2000) :
    ∃ s1 s2, execute op s = .ok s1 ∧ execute 0x00ee s1 = .ok s2 ∧
      s1.counter = withoutFirst op ∧ s2.counter = s.counter + 2 ∧ s2.stack = s.stack := by
  have hne : op ≠ 0xee := by
    intro he
    rw [he] at hop
    simp at hop
  have h1 : execute op s = .ok { s with stack := s.counter :: s.stack, counter := withoutFirst op } := by
    simp [execute, hop, subroutine, hne]
  have h2 : execute 0x00ee { s with stack := s.counter :: s.stack, counter := withoutFirst op } =
      .ok { s with counter := s.counter + 2 } := by
    simp [execute, subroutine, incCounter]
    decide
  exact ⟨_, _, h1, h2, rfl, rfl, rfl⟩

/-- Claim C4, amended: executing Bnnn sets the program counter to
nnn + V0 when that sum is below 0x1000, and raises the
"Program counter corrupted" error (with the counter already assigned the
out-of-range sum) when the sum is 0x1000 or more. The code neither wraps
modulo 65536 nor is error-free, contrary to the claim as stated. -/
theorem jump_offset_behavior (op : Nat) (s : VM) (hop : op &&& 0xf000 = 0xb000) :
    (withoutFirst op + s.registers 0 < 0x1000 →
      execute op s = .ok { s with counter := withoutFirst op + s.registers 0 }) ∧
    (0x1000 ≤ withoutFirst op + s.registers 0 →
      execute op s = .err .corrupted { s with counter := withoutFirst op + s.registers 0 }) := by
  constructor <;> intro h <;> simp [execute, hop, jump] <;> omega

/-- Counterexample to claim C4 as stated: with V0 = 1, executing B'FFF
raises an error instead of setting PC to (0xFFF + 1) % 65536. -/
theorem jump_offset_cex : ¬ jumpOffsetMod65536NoError := by
  intro hcl
  obtain ⟨t, ht, _⟩ := hcl 0xbfff vmV01 (by decide)
  have : okCtr (execute 0xbfff vmV01) = some t.counter := by rw [ht]; rfl
  rw [show okCtr (execute 0xbfff vmV01) = none from rfl] at this
  exact Option.noConfusion this

/-- Claim C5, amended: executing Fx1E sets I to (I + Vx) mod 4096 (the
constant named SIXTEEN_BIT_WRAP in the source is 0x1000), sets VF to 1
iff I + Vx reached 0x1000, and advances the program counter by 2. -/
theorem add_to_address_register (op : Nat) (s : VM) (hop : withoutSecond op = 0xf01e) :
    ∃ t, execute op s = .ok t ∧
      t.address = (s.address + s.registers (nibSecond op)) % 4096 ∧
      t.registers 0xf = (if 0x1000 ≤ s.address + s.registers (nibSecond op) then 1 else 0) ∧
      t.counter = s.counter + 2 := by
  have hf : op &&& 0xf000 = 0xf000 := by
    have h1 := and_narrow hop 0xf000 (by decide)
    rwa [show (0xf01e &&& 0xf000 : Nat) = 0xf000 from by decide] at h1
  have hl : op &&& 0x00ff = 0x1e := by
    have h1 := and_narrow hop 0x00ff (by decide)
    rwa [show (0xf01e &&& 0x00ff : Nat) = 0x1e from by decide] at h1
  have hx : execute op s = .ok (incCounter
      { s with registers := setReg s.registers 0xf
                 (if s.address + s.registers (nibSecond op) ≥ 0x1000 then 1 else 0),
               address := (s.address + s.registers (nibSecond op)) % 0x1000 }) := by
    simp [execute, hf, hl, memory, hop]
  refine ⟨_, hx, rfl, ?_, rfl⟩
  show setReg s.registers 0xf _ 0xf = _
  unfold setReg
  rw [if_pos (by omega), Function.update_same]
  split <;> rfl

/-- Counterexample to claim C5 as stated: with I = 0xFFF and V0 = 1,
executing F01E yields I = 0, not (0xFFF + 1) % 65536 = 0x1000. -/
theorem add_to_I_cex : ¬ addToIMod65536 := by
  intro hcl
  obtain ⟨t, ht, ha⟩ := hcl 0xf01e vmI (by decide)
  have h2 : okAddr (execute 0xf01e vmI) = some t.address := by rw [ht]; rfl
  rw [ha] at h2
  rw [show okAddr (execute 0xf01e vmI) = some 0 from rfl] at h2
  exact absurd h2 (by decide)

/-- Claim C3, amended: executing 8xy4 sets VF to 1 iff the unsigned sum
Vx + Vy is at least 256 and to 0 otherwise, and, provided x is not F,
stores (Vx + Vy) mod 256 into Vx; when x = F the carry flag is written
after the sum and overwrites it, so Vx ends as the flag, not the sum. -/
theorem add_regs_behavior (op : Nat) (s : VM)
    (h8 : op &&& 0xf000 = 0x8000) (h4 : op &&& 0x000f = 0x4) :
    ∃ t, execute op s = .ok t ∧
      t.registers 0xf = (if s.registers (nibSecond op) + s.registers (nibThird op) ≥ 256 then 1 else 0) ∧
      (nibSecond op ≠ 0xf →
        t.registers (nibSecond op) =
          (s.registers (nibSecond op) + s.registers (nibThird op)) % 256) ∧
      t.counter = s.counter + 2 := by
  have hx : execute op s = .ok (incCounter { s with registers := setReg (setReg s.registers (nibSecond op) (s.registers (nibSecond op) + s.registers (nibThird op))) 0xf (if s.registers (nibSecond op) + s.registers (nibThird op) ≥ 256 then 1 else 0) }) := by
    simp [execute, h8, betweenRegisters, h4]
  refine ⟨_, hx, ?_, ?_, rfl⟩
  · simp only [incCounter]
    rw [setReg_same _ _ _ (by omega)]
    split <;> rfl
  · intro hne
    simp only [incCounter]
    rw [setReg_other _ _ hne, setReg_same _ _ _ (nibSecond_lt op)]

/-- Counterexample to claim C3 as stated: for opcode 8F04 with VF = 5 and
V0 = 0, the final VF is the carry flag 0, not (5 + 0) mod 256 = 5, so the
sum is not stored into Vx when x = F. -/
theorem add_regs_cex : ¬ addStoresSumAndCarry := by
  intro hcl
  obtain ⟨t, ht, hsum, hflag⟩ := hcl 0x8f04 vmF5 (by decide) (by decide)
  have h1 : okRegAt (execute 0x8f04 vmF5) (nibSecond 0x8f04) = some (t.registers (nibSecond 0x8f04)) := by
    rw [ht]; rfl
  rw [hsum] at h1
  rw [show okRegAt (execute 0x8f04 vmF5) (nibSecond 0x8f04) = some 0 from rfl] at h1
  exact absurd h1 (by decide)

/-- Claim C10: executing Fx55 copies V0..Vx to memory[I..I+x] (for the
in-range addresses), leaves all other memory unchanged, leaves the
registers unchanged, and leaves the address register at I + x + 1;
executing Fx65 loads V0..Vx from memory[I..I+x], leaves memory and the
higher registers unchanged, and likewise leaves the address register at
I + x + 1. In both cases the program counter advances by 2. -/
theorem reg_dump_load_advance_I (op : Nat) (s : VM) :
    (withoutSecond op = 0xf055 → ∃ t, execute op s = .ok t ∧
       t.address = s.address + nibSecond op + 1 ∧
       t.registers = s.registers ∧
       (∀ r, r ≤ nibSecond op → s.address + r < 4096 →
          t.memory (s.address + r) = s.registers r % 256) ∧
       (∀ a, a < s.address ∨ s.address + nibSecond op < a → t.memory a = s.memory a) ∧
       t.counter = s.counter + 2) ∧
    (withoutSecond op = 0xf065 → ∃ t, execute op s = .ok t ∧
       t.address = s.address + nibSecond op + 1 ∧
       t.memory = s.memory ∧
       (∀ r, r ≤ nibSecond op → t.registers r = memRead s.memory (s.address + r) % 256) ∧
       (∀ j, nibSecond op < j → t.registers j = s.registers j) ∧
       t.counter = s.counter + 2) := by
  constructor <;> intro hop
  · have hf : op &&& 0xf000 = 0xf000 := by
      have h1 := and_narrow hop 0xf000 (by decide)
      rwa [show (0xf055 &&& 0xf000 : Nat) = 0xf000 from by decide] at h1
    have hl : op &&& 0x00ff = 0x55 := by
      have h1 := and_narrow hop 0x00ff (by decide)
      rwa [show (0xf055 &&& 0x00ff : Nat) = 0x55 from by decide] at h1
    have hx : execute op s = .ok (incCounter (dumpN s (nibSecond op + 1))) := by
      simp [execute, hf, hl, memory, hop, dumpN]
    obtain ⟨ha, hr, hc, hm⟩ := dumpN_facts s (nibSecond op + 1)
    refine ⟨_, hx, ?_, ?_, ?_, ?_, ?_⟩
    · simp only [incCounter]
      omega
    · simpa [incCounter] using hr
    · intro r hr1 hr2
      simp only [incCounter]
      rw [hm (s.address + r), if_pos (by omega),
        show s.address + r - s.address = r from by omega]
    · intro a hside
      simp only [incCounter]
      rw [hm a, if_neg (by omega)]
    · simp only [incCounter]
      omega
  · have hf : op &&& 0xf000 = 0xf000 := by
      have h1 := and_narrow hop 0xf000 (by decide)
      rwa [show (0xf065 &&& 0xf000 : Nat) = 0xf000 from by decide] at h1
    have hl : op &&& 0x00ff = 0x65 := by
      have h1 := and_narrow hop 0x00ff (by decide)
      rwa [show (0xf065 &&& 0x00ff : Nat) = 0x65 from by decide] at h1
    have hx : execute op s = .ok (incCounter (loadN s (nibSecond op + 1))) := by
      simp [execute, hf, hl, memory, hop, loadN]
    obtain ⟨ha, hm, hc, hr⟩ := loadN_facts s (nibSecond op + 1)
    have hx16 := nibSecond_lt op
    refine ⟨_, hx, ?_, ?_, ?_, ?_, ?_⟩
    · simp only [incCounter]
      omega
    · simpa [incCounter] using hm
    · intro r hr1
      simp only [incCounter]
      rw [hr r, if_pos (by omega)]
    · intro j hj
      simp only [incCounter]
      rw [hr j, if_neg (by omega)]
    · simp only [incCounter]
      omega

/-- Claim C7: when the fetched opcode is Fx0A and no key is pressed,
`next` leaves the whole state unchanged except for entering the
input-wait state, and any number of further `next` calls leave that state
fixed (the program counter never advances); on the first `next` during
which exactly one key k (0..15) is pressed, the engine writes k into Vx,
advances the program counter by exactly 2, and leaves the input-wait
state. -/
theorem wait_for_key_behavior (s : VM)
    (hf : fetchOp s &&& 0xf000 = 0xf000) (hl : fetchOp s &&& 0x00ff = 0x0a)
    (hw : withoutSecond (fetchOp s) = 0xf00a) :
    ((∀ j, j < 16 → s.pressed j = false) →
       next s = .ok { s with waitingForInput := true } ∧
       ∀ n, nextTimes n { s with waitingForInput := true } = .ok { s with waitingForInput := true }) ∧
    (∀ k, k < 16 → s.pressed k = true → (∀ j, j < 16 → j ≠ k → s.pressed j = false) →
       next s = .ok { s with waitingForInput := false,
                             registers := setReg s.registers (nibSecond (fetchOp s)) k,
                             counter := s.counter + 2 }) := by
  constructor
  · intro hnone
    have hfind : keyMapCodes.find? s.pressed = none := by
      rw [List.find?_eq_none]
      intro j hj
      rw [hnone j (keyMapCodes_lt j hj)]
      exact Bool.noConfusion
    have hstep : next s = .ok { s with waitingForInput := true } := by
      unfold next
      simp [execute, hf, hl, input, hw, hfind]
    refine ⟨hstep, fun n => ?_⟩
    induction n with
    | zero => rfl
    | succ n ih =>
      have hstep2 : next { s with waitingForInput := true } = .ok { s with waitingForInput := true } := by
        have hf2 : fetchOp { s with waitingForInput := true } &&& 0xf000 = 0xf000 := hf
        have hl2 : fetchOp { s with waitingForInput := true } &&& 0x00ff = 0x0a := hl
        have hw2 : withoutSecond (fetchOp { s with waitingForInput := true }) = 0xf00a := hw
        have hfind2 : keyMapCodes.find? (VM.pressed { s with waitingForInput := true }) = none := hfind
        unfold next
        simp [execute, hf2, hl2, input, hw2, hfind2]
      show (match next { s with waitingForInput := true } with
            | .ok t => nextTimes n t
            | e => e) = _
      rw [hstep2]
      exact ih
  · intro k hk hpk hothers
    have hfind : keyMapCodes.find? s.pressed = some k :=
      find_of_unique (mem_keyMapCodes k hk) hpk
        (fun j hj hne => hothers j (keyMapCodes_lt j hj) hne)
    unfold next
    simp [execute, hf, hl, input, hw, hfind]

/-- Claim C1, amended: after any successfully executed instruction the
program counter is advanced by 2, advanced by 4, or explicitly redirected
by a jump, call or return opcode, except for Fx0A executed while no key
is pressed, which leaves the program counter unchanged. The claim's
"without exception, including Fx0A" is refuted by `pc_policy_cex`. -/
theorem pc_update_policy (op : Nat) (s t : VM) (h : execute op s = .ok t) :
    explicitlyRedirects op ∨ t.counter = s.counter + 2 ∨ t.counter = s.counter + 4 ∨
      (withoutSecond op = 0xf00a ∧ t.counter = s.counter) := by
  have jcr : ∀ P : Prop, op &&& 0xf000 = 0x1000 ∨ op &&& 0xf000 = 0xb000 ∨
      op &&& 0xf000 = 0x2000 ∨ op = 0x00ee → P ∨ explicitlyRedirects op → explicitlyRedirects op := by
    intro P hP hor
    rcases hor with _ | hor
    · unfold explicitlyRedirects
      tauto
    · exact hor
  unfold execute at h
  by_cases c1 : op &&& 0xf000 = 0x1000 ∨ op &&& 0xf000 = 0xb000
  · exact Or.inl (by unfold explicitlyRedirects; tauto)
  rw [if_neg c1] at h
  by_cases c2 : op &&& 0xf000 = 0x0000
  · rw [if_pos c2] at h
    by_cases c2a : op = 0x00e0
    · rw [if_pos c2a] at h
      exact Or.inr (Or.inl (display_counter h))
    · rw [if_neg c2a] at h
      rcases subroutine_counter h with h2 | h2 | h2 | h2
      · exact Or.inr (Or.inl h2)
      · exact Or.inl (Or.inr (Or.inr (Or.inr h2)))
      · exact Or.inl (Or.inr (Or.inr (Or.inl h2)))
      · omega
  rw [if_neg c2] at h
  by_cases c3 : op &&& 0xf000 = 0x2000
  · exact Or.inl (by unfold explicitlyRedirects; tauto)
  rw [if_neg c3] at h
  by_cases c4 : op &&& 0xf000 = 0x3000 ∨ op &&& 0xf000 = 0x4000 ∨
      op &&& 0xf000 = 0x5000 ∨ op &&& 0xf000 = 0x9000
  · rw [if_pos c4] at h
    rcases skip_counter h with h2 | h2
    · exact Or.inr (Or.inl h2)
    · exact Or.inr (Or.inr (Or.inl h2))
  rw [if_neg c4] at h
  by_cases c5 : op &&& 0xf000 = 0x6000 ∨ op &&& 0xf000 = 0x7000 ∨ op &&& 0xf000 = 0xc000
  · rw [if_pos c5] at h
    exact Or.inr (Or.inl (register_counter h))
  rw [if_neg c5] at h
  by_cases c6 : op &&& 0xf000 = 0x8000
  · rw [if_pos c6] at h
    exact Or.inr (Or.inl (betweenRegisters_counter h))
  rw [if_neg c6] at h
  by_cases c7 : op &&& 0xf000 = 0xa000
  · rw [if_pos c7] at h
    exact Or.inr (Or.inl (memory_counter h))
  rw [if_neg c7] at h
  by_cases c8 : op &&& 0xf000 = 0xd000
  · rw [if_pos c8] at h
    exact Or.inr (Or.inl (display_counter h))
  rw [if_neg c8] at h
  by_cases c9 : op &&& 0xf000 = 0xe000
  · rw [if_pos c9] at h
    rcases input_counter h with h2 | h2 | h2
    · exact Or.inr (Or.inl h2)
    · exact Or.inr (Or.inr (Or.inl h2))
    · exact Or.inr (Or.inr (Or.inr h2))
  rw [if_neg c9] at h
  by_cases c10 : op &&& 0xf000 = 0xf000
  · rw [if_pos c10] at h
    by_cases d1 : op &&& 0x00ff = 0x0a
    · rw [if_pos d1] at h
      rcases input_counter h with h2 | h2 | h2
      · exact Or.inr (Or.inl h2)
      · exact Or.inr (Or.inr (Or.inl h2))
      · exact Or.inr (Or.inr (Or.inr h2))
    rw [if_neg d1] at h
    by_cases d2 : op &&& 0x00ff = 0x07 ∨ op &&& 0x00ff = 0x15 ∨ op &&& 0x00ff = 0x18
    · rw [if_pos d2] at h
      exact Or.inr (Or.inl (timer_counter h))
    rw [if_neg d2] at h
    by_cases d3 : op &&& 0x00ff = 0x1e ∨ op &&& 0x00ff = 0x29 ∨ op &&& 0x00ff = 0x33 ∨
        op &&& 0x00ff = 0x55 ∨ op &&& 0x00ff = 0x65
    · rw [if_pos d3] at h
      exact Or.inr (Or.inl (memory_counter h))
    rw [if_neg d3] at h
    by_cases d4 : op &&& 0x00ff = 0x75
    · rw [if_pos d4] at h
      injection h with h
      subst h
      exact Or.inr (Or.inl rfl)
    rw [if_neg d4] at h
    by_cases d5 : op &&& 0x00ff = 0x85
    · rw [if_pos d5] at h
      injection h with h
      subst h
      exact Or.inr (Or.inl rfl)
    rw [if_neg d5] at h
    exact Outcome.noConfusion h
  rw [if_neg c10] at h
  exact Outcome.noConfusion h

/-- Counterexample to claim C1 as stated: executing FA0A with no key
pressed completes successfully but leaves the program counter unchanged,
which is neither an explicit jump/call/return redirect nor an advance by
2 or 4. -/
theorem pc_policy_cex : ¬ pcPolicyNoException := by
  intro hcl
  have hx : execute 0xfa0a vm0 = .ok { vm0 with waitingForInput := true } := by
    simp [execute, input]
    rfl
  rcases hcl 0xfa0a vm0 _ hx with hj | hc | hc
  · revert hj
    unfold explicitlyRedirects
    decide
  · exact absurd hc (by decide)
  · exact absurd hc (by decide)

/-- Claim C8: for every sprite byte list of at most 32 rows (the Draw
instruction always passes at most 15), `drawSprite` XOR-toggles exactly
the pixels ((x1 + column) mod 64, (y1 + row) mod 32) for each set bit
(most significant bit first within a row byte), and returns true iff some
toggled pixel was previously set (a set-to-unset transition); the Dxyn
instruction stores that returned flag, as 1 or 0, into VF and advances
the program counter by 2. -/
theorem drawSprite_toggles_and_collides :
    (∀ (g : Nat → Nat → Bool) (x1 y1 : Nat) (bytes : List Nat), bytes.length ≤ 32 →
       (drawSprite g x1 y1 bytes).1 =
         (fun a b => if (a, b) ∈ spriteTargets x1 y1 bytes then ! g a b else g a b) ∧
       (drawSprite g x1 y1 bytes).2 =
         (spriteTargets x1 y1 bytes).any (fun p => g p.1 p.2)) ∧
    (∀ op s, op &&& 0xf000 = 0xd000 →
       ∃ t, execute op s = .ok t ∧
         t.grid = (drawSprite s.grid (s.registers (nibSecond op)) (s.registers (nibThird op))
           (sliceMem s.memory s.address (nibFourth op))).1 ∧
         t.registers 0xf = (if (drawSprite s.grid (s.registers (nibSecond op))
           (s.registers (nibThird op)) (sliceMem s.memory s.address (nibFourth op))).2
             then 1 else 0) ∧
         t.counter = s.counter + 2) := by
  constructor
  · intro g x1 y1 bytes hlen
    have hfuse : drawSprite g x1 y1 bytes = togglePixels (g, false) (spriteTargets x1 y1 bytes) :=
      rows_fusion x1 y1 bytes 0 (g, false)
    have hnd : (spriteTargets x1 y1 bytes).Nodup := spriteTargetsFrom_nodup x1 y1 bytes 0 hlen
    rw [hfuse, togglePixels_of_nodup _ _ _ hnd]
    exact ⟨rfl, by rw [Bool.false_or]⟩
  · intro op s hop
    have hne : op ≠ 0x00e0 := by
      intro he
      rw [he] at hop
      simp at hop
    have hd : nibFirst op = 0xd := by
      unfold nibFirst
      rw [hop]
      decide
    have hx : execute op s = .ok (incCounter
        { s with grid := (drawSprite s.grid (s.registers (nibSecond op)) (s.registers (nibThird op)) (sliceMem s.memory s.address (nibFourth op))).1,
                 registers := setReg s.registers 0xf (if (drawSprite s.grid (s.registers (nibSecond op)) (s.registers (nibThird op)) (sliceMem s.memory s.address (nibFourth op))).2 then 1 else 0) }) := by
      simp [execute, hop, display, hne, hd]
    refine ⟨_, hx, rfl, ?_, rfl⟩
    simp only [incCounter]
    rw [setReg_same _ _ _ (by omega)]
    split <;> rfl

/-- Witness for C1's amended theorem at the clear-screen opcode. -/
theorem pc_update_policy_witness :
    explicitlyRedirects 0x00e0 ∨ vmCleared.counter = vm0.counter + 2 ∨
      vmCleared.counter = vm0.counter + 4 ∨
      (withoutSecond 0x00e0 = 0xf00a ∧ vmCleared.counter = vm0.counter) :=
  pc_update_policy 0x00e0 vm0 vmCleared rfl

/-- Witness for C3's amended theorem at opcode 8124. -/
theorem add_regs_behavior_witness :
    ∃ t, execute 0x8124 vm0 = .ok t ∧
      t.registers 0xf = (if vm0.registers (nibSecond 0x8124) + vm0.registers (nibThird 0x8124) ≥ 256 then 1 else 0) ∧
      (nibSecond 0x8124 ≠ 0xf →
        t.registers (nibSecond 0x8124) =
          (vm0.registers (nibSecond 0x8124) + vm0.registers (nibThird 0x8124)) % 256) ∧
      t.counter = vm0.counter + 2 :=
  add_regs_behavior 0x8124 vm0 (by decide) (by decide)

/-- Witness for C4's amended theorem at opcode B300 with V0 = 0. -/
theorem jump_offset_behavior_witness :
    execute 0xb300 vm0 = .ok { vm0 with counter := withoutFirst 0xb300 + vm0.registers 0 } :=
  (jump_offset_behavior 0xb300 vm0 (by decide)).1 (by decide)

/-- Witness for C5's amended theorem at opcode F11E. -/
theorem add_to_address_register_witness :
    ∃ t, execute 0xf11e vm0 = .ok t ∧
      t.address = (vm0.address + vm0.registers (nibSecond 0xf11e)) % 4096 ∧
      t.registers 0xf = (if vm0.address + vm0.registers (nibSecond 0xf11e) ≥ 0x1000 then 1 else 0) ∧
      t.counter = vm0.counter + 2 :=
  add_to_address_register 0xf11e vm0 (by decide)

/-- Witness for C6's theorem at call opcode 2400. -/
theorem call_ret_witness :
    ∃ s1 s2, execute 0x2400 vm0 = .ok s1 ∧ execute 0x00ee s1 = .ok s2 ∧
      s1.counter = withoutFirst 0x2400 ∧ s2.counter = vm0.counter + 2 ∧ s2.stack = vm0.stack :=
  call_ret 0x2400 vm0 (by decide)

/-- Witness for C7's theorem: FA0A fetched with no key pressed blocks. -/
theorem wait_for_key_behavior_witness :
    next vmWait = .ok { vmWait with waitingForInput := true } ∧
    ∀ n, nextTimes n { vmWait with waitingForInput := true } =
      .ok { vmWait with waitingForInput := true } :=
  (wait_for_key_behavior vmWait (by decide) (by decide) (by decide)).1 (by decide)

/-- Witness for C8's theorem: a two-row sprite and the draw opcode D015. -/
theorem drawSprite_toggles_witness :
    ((drawSprite vm0.grid 5 0 [255, 15]).2 =
      (spriteTargets 5 0 [255, 15]).any (fun p => vm0.grid p.1 p.2)) ∧
    (∃ t, execute 0xd015 vm0 = .ok t ∧
       t.grid = (drawSprite vm0.grid (vm0.registers (nibSecond 0xd015)) (vm0.registers (nibThird 0xd015)) (sliceMem vm0.memory vm0.address (nibFourth 0xd015))).1 ∧
       t.registers 0xf = (if (drawSprite vm0.grid (vm0.registers (nibSecond 0xd015)) (vm0.registers (nibThird 0xd015)) (sliceMem vm0.memory vm0.address (nibFourth 0xd015))).2 then 1 else 0) ∧
       t.counter = vm0.counter + 2) :=
  ⟨(drawSprite_toggles_and_collides.1 vm0.grid 5 0 [255, 15] (by decide)).2,
   drawSprite_toggles_and_collides.2 0xd015 vm0 (by decide)⟩

/-- Witness for C9's theorem at the empty-stack construction state. -/
theorem ret_empty_stack_witness :
    execute 0x00ee vm0 = .err .stack vm0 ∧ (fetchOp vm0 = 0x00ee → next vm0 = .err .stack vm0) :=
  ret_empty_stack vm0 rfl

/-- Witness for C10's theorem at opcode F255. -/
theorem reg_dump_load_advance_I_witness :
    ∃ t, execute 0xf255 vm0 = .ok t ∧
      t.address = vm0.address + nibSecond 0xf255 + 1 ∧
      t.registers = vm0.registers ∧
      (∀ r, r ≤ nibSecond 0xf255 → vm0.address + r < 4096 →
         t.memory (vm0.address + r) = vm0.registers r % 256) ∧
      (∀ a, a < vm0.address ∨ vm0.address + nibSecond 0xf255 < a → t.memory a = vm0.memory a) ∧
      t.counter = vm0.counter + 2 :=
  (reg_dump_load_advance_I 0xf255 vm0).1 (by decide)
